import Mathlib

/-!
Verification of the tabular Q-learning Pokémon agent.

Shallow embedding of the repository's core modules:
* `q_table.py`        — `QTable` (defaultdict-backed value table)
* `q_learning_agent.py` — `QLearningAgent` (epsilon-greedy policy)
* `reward_system.py`  — `RewardSystem` (novelty / goal / step-cost shaping)
* `mgba_environment_client.py` — `MGBAEnvironment.ParseState` / `Step`

Python floats are embedded as `ℚ` (exact arithmetic), machine ints as `ℤ`,
dicts as insertion-ordered association lists (a Python `dict` preserves
insertion order; assignment to a fresh key appends, assignment to an existing
key overwrites in place), and Python `set`s as lists used up to membership.
The `defaultdict` read side effect (materializing a default row on a missed
lookup) is modelled explicitly by `QTable.touch`.
-/

namespace PokemonRL

/-- A Q-table row: the Python dict `{action : q_value}`, insertion ordered. -/
abbrev Row := List (Int × ℚ)

/-- The encoded policy state `(pos_x, pos_y, map_bank, map_num, in_battle, direction)`
produced by `RLAgent.EncodeState` (`RL_agent.py`). -/
abbrev PolicyState := Int × Int × Int × Int × Int × Int

/-- Lookup in a Python dict modelled as an association list (first binding wins). -/
def rowLookup : Row → Int → Option ℚ
  | [], _ => none
  | (b, w) :: r, a => if b = a then some w else rowLookup r a

/-- Python dict assignment `d[a] = v`: overwrite the existing binding in place,
or append a fresh binding at the end. -/
def rowSet : Row → Int → ℚ → Row
  | [], a, v => [(a, v)]
  | (b, w) :: r, a, v => if b = a then (a, v) :: r else (b, w) :: rowSet r a v

/-- `max(d.values())` over a dict row: `none` on an empty dict (Python raises). -/
def valsMax : Row → Option ℚ
  | [] => none
  | (_, v) :: r =>
    match valsMax r with
    | none => some v
    | some m => some (max v m)

/-- `max(d, key=d.get)` over a dict row: the first key attaining the maximal
value (Python's `max` keeps the earliest maximum), `none` on an empty dict. -/
def argmaxPair : Row → Option (Int × ℚ)
  | [] => none
  | p :: r =>
    match argmaxPair r with
    | none => some p
    | some q => if q.2 > p.2 then some q else some p

/-- Lookup of a state's row in the outer dict of `QTable.q_table`. -/
def tableLookup {σ : Type} [DecidableEq σ] : List (σ × Row) → σ → Option Row
  | [], _ => none
  | (t, r0) :: rest, s => if t = s then some r0 else tableLookup rest s

/-- Outer-dict assignment: overwrite the row of `s` in place, or append. -/
def tableSet {σ : Type} [DecidableEq σ] : List (σ × Row) → σ → Row → List (σ × Row)
  | [], s, row => [(s, row)]
  | (t, r0) :: rest, s, row =>
    if t = s then (s, row) :: rest else (t, r0) :: tableSet rest s row

/-- `QTable` (`q_table.py`): `self.actions` plus the `defaultdict` mapping
states to action-value rows.  The default factory is
`lambda: {a: 0.0 for a in self.actions}`. -/
structure QTable (σ : Type) where
  actions : List Int
  table : List (σ × Row)

namespace QTable

variable {σ : Type} [DecidableEq σ]

/-- The lazily materialized default row `{a: 0.0 for a in actions}`. -/
def defaultRow (actions : List Int) : Row := actions.map (fun a => (a, 0))

/-- The row a read of `self.q_table[state]` returns: the stored row, or the
default row when the state is unseen. -/
def getRowD (q : QTable σ) (s : σ) : Row :=
  (tableLookup q.table s).getD (defaultRow q.actions)

/-- The `defaultdict` side effect of reading `self.q_table[state]`: an unseen
state gets its default row inserted (at the end, in insertion order). -/
def touch (q : QTable σ) (s : σ) : QTable σ :=
  match tableLookup q.table s with
  | some _ => q
  | none => { q with table := q.table ++ [(s, defaultRow q.actions)] }

/-- Value returned by `GetQTable(state, action)` = `self.q_table[state][action]`:
`none` models the `KeyError` on an action outside the row.  (The read also
materializes the state's row; that side effect is `touch`.) -/
def GetQTable (q : QTable σ) (s : σ) (a : Int) : Option ℚ :=
  rowLookup (q.getRowD s) a

/-- `GetStateActions(state)`: the row read together with the materialization. -/
def GetStateActions (q : QTable σ) (s : σ) : Row × QTable σ :=
  (q.getRowD s, q.touch s)

/-- `SetQTable(state, action, value)` = `self.q_table[state][action] = value`. -/
def SetQTable (q : QTable σ) (s : σ) (a : Int) (v : ℚ) : QTable σ :=
  let q1 := q.touch s
  { q1 with table := tableSet q1.table s (rowSet (q.getRowD s) a v) }

/-- `MaxActionValue(state)` = `max(self.q_table[state].values())` together with
the materialization; `none` models the `ValueError` on an empty row. -/
def MaxActionValue (q : QTable σ) (s : σ) : Option ℚ × QTable σ :=
  (valsMax (q.getRowD s), q.touch s)

/-- `Update(state, action, reward, next_state, alpha, gamma)` (`q_table.py`):
`new_q = current_q + alpha * (reward + gamma * next_max_q - current_q)`,
then `SetQTable`.  The Boolean records whether the update ran to completion
(`false` models the `KeyError` / `ValueError` exits; the materializations that
happened before the exception are kept, as in Python). -/
def Update (q : QTable σ) (s : σ) (a : Int) (r : ℚ) (ns : σ) (alpha gamma : ℚ) :
    QTable σ × Bool :=
  let q1 := q.touch s
  match q.GetQTable s a with
  | none => (q1, false)
  | some cur =>
    let q2 := q1.touch ns
    match valsMax (q1.getRowD ns) with
    | none => (q2, false)
    | some m => (q2.SetQTable s a (cur + alpha * (r + gamma * m - cur)), true)

/-- `SaveQTable(path)`: `pickle.dump(dict(self.q_table), f)` — the persisted
payload is exactly the stored entries (pickle round-trips this data exactly). -/
def SaveQTable (q : QTable σ) : List (σ × Row) := q.table

/-- `LoadQTable(path)`: re-wrap the unpickled data with a fresh `defaultdict`
using the same default factory over `self.actions`. -/
def LoadQTable (q : QTable σ) (data : List (σ × Row)) : QTable σ :=
  { q with table := data }

end QTable

/-! ### CSV export (`QTable.ExportCSV`) -/

/-- One cell handed to `csv.writer.writerow` (the Python value before
stringification). -/
inductive Cell where
  | str (s : String)
  | int (n : Int)
  | rat (q : ℚ)
deriving DecidableEq

/-- The header row written by `ExportCSV`. -/
def csvHeader : List Cell :=
  [Cell.str "pos_x", Cell.str "pos_y", Cell.str "map_bank", Cell.str "map_num",
   Cell.str "in_battle", Cell.str "direction", Cell.str "action", Cell.str "q_value"]

/-- One data row of `ExportCSV`: the six state components, the action, the value. -/
def csvDataRow (s : PolicyState) (a : Int) (v : ℚ) : List Cell :=
  [Cell.int s.1, Cell.int s.2.1, Cell.int s.2.2.1, Cell.int s.2.2.2.1,
   Cell.int s.2.2.2.2.1, Cell.int s.2.2.2.2.2, Cell.int a, Cell.rat v]

/-- `ExportCSV(path)` (`q_table.py`): write the header, then for every stored
state and every action binding of its row, one data row. -/
def QTable.ExportCSV (q : QTable PolicyState) : List (List Cell) :=
  csvHeader :: q.table.flatMap (fun sr => sr.2.map (fun av => csvDataRow sr.1 av.1 av.2))

/-! ### `QLearningAgent` (`q_learning_agent.py`) -/

/-- `ALL_ACTIONS` (`actions.py`): the `Action` `IntEnum` values `UP..B`. -/
def ALL_ACTIONS : List Int := [0, 1, 2, 3, 4, 5]

/-- `QLearningAgent` (`q_learning_agent.py`). -/
structure QLearningAgent where
  alpha : ℚ
  gamma : ℚ
  epsilon : ℚ
  epsilon_min : ℚ
  epsilon_decay : ℚ
  q_table : QTable PolicyState

namespace QLearningAgent

/-- The constructor defaults
`alpha=0.1, gamma=0.99, epsilon=1.0, epsilon_min=0.05, epsilon_decay=0.9995`,
with a fresh table over `ALL_ACTIONS`. -/
def mkDefault : QLearningAgent :=
  { alpha := 1/10, gamma := 99/100, epsilon := 1, epsilon_min := 1/20,
    epsilon_decay := 9995/10000, q_table := ⟨ALL_ACTIONS, []⟩ }

/-- `ChooseAction(state)`: with `random.random() < epsilon` (the sampled value
and the uniformly chosen action are passed in as `randVal`, `randomChoice`),
return the random action; otherwise return `max(q_values, key=q_values.get)`
over the (lazily materialized) row — `none` models the `ValueError` on an
empty row. -/
def ChooseAction (ag : QLearningAgent) (st : PolicyState) (randVal : ℚ)
    (randomChoice : Int) : Option Int × QLearningAgent :=
  if randVal < ag.epsilon then (some randomChoice, ag)
  else ((argmaxPair (ag.q_table.getRowD st)).map Prod.fst,
        { ag with q_table := ag.q_table.touch st })

/-- `Update(state, action, reward, next_state)`: delegate to `QTable.Update`
with the stored `alpha`/`gamma`. -/
def Update (ag : QLearningAgent) (s : PolicyState) (a : Int) (r : ℚ)
    (ns : PolicyState) : QLearningAgent × Bool :=
  let res := ag.q_table.Update s a r ns ag.alpha ag.gamma
  ({ ag with q_table := res.1 }, res.2)

/-- `DecayEpsilon()`: if `epsilon > epsilon_min`, multiply by `epsilon_decay`
and clamp from below by `epsilon_min`. -/
def DecayEpsilon (ag : QLearningAgent) : QLearningAgent :=
  if ag.epsilon_min < ag.epsilon then
    { ag with epsilon := max (ag.epsilon * ag.epsilon_decay) ag.epsilon_min }
  else ag

/-- `n` successive `DecayEpsilon()` calls. -/
def decayIter (ag : QLearningAgent) : Nat → QLearningAgent
  | 0 => ag
  | n + 1 => (decayIter ag n).DecayEpsilon

end QLearningAgent

/-! ### `RewardSystem` (`reward_system.py`) -/

/-- The `Goal` namedtuple `(mapBank, mapNum, reward)`. -/
structure Goal where
  mapBank : Int
  mapNum : Int
  reward : ℚ
deriving DecidableEq

/-- The fixed seed goal set installed by `InitGoalMaps`. -/
def seedGoals : List Goal := [⟨0, 16, 50⟩, ⟨1, 0, 25⟩]

/-- A tile key `(x, y, mapBank, mapNum)` as built by `UpdateRewardAction`. -/
abbrev TileKey := Int × Int × Int × Int

/-- `RewardSystem` (`reward_system.py`).  Python `set`s are embedded as lists
used up to membership. -/
structure RewardSystem where
  visitedTiles : List TileKey
  reward : ℚ
  framesNotMoving : Nat
  pendingGoalLocation : List Goal
  visitedLocationVisited : List Goal

namespace RewardSystem

/-- `__init__`: empty visited sets, zero reward, seeded goals. -/
def init : RewardSystem := ⟨[], 0, 0, seedGoals, []⟩

/-- `CheckTileRecord(currentPosition)`: on a first visit, `reward += 1` and
record the tile. -/
def CheckTileRecord (rs : RewardSystem) (pos : TileKey) : RewardSystem :=
  if pos ∈ rs.visitedTiles then rs
  else { rs with reward := rs.reward + 1, visitedTiles := pos :: rs.visitedTiles }

/-- The loop of `CheckMapGoal`: scan the pending goals for the first one whose
`(mapBank, mapNum)` matches, returning it and the remaining pending goals. -/
def findGoal : List Goal → Int → Int → Option (Goal × List Goal)
  | [], _, _ => none
  | g :: rest, bank, num =>
    if g.mapNum = num ∧ g.mapBank = bank then some (g, rest)
    else (findGoal rest bank num).map (fun p => (p.1, g :: p.2))

/-- `CheckMapGoal(currentPosition)`: award the first matching pending goal's
reward, move it to the visited set, remove it from pending, and stop
(`break`). -/
def CheckMapGoal (rs : RewardSystem) (pos : TileKey) : RewardSystem :=
  match findGoal rs.pendingGoalLocation pos.2.2.1 pos.2.2.2 with
  | none => rs
  | some (g, rest) =>
    { rs with reward := rs.reward + g.reward,
              visitedLocationVisited := g :: rs.visitedLocationVisited,
              pendingGoalLocation := rest }

end RewardSystem

/-! ### Observations and `ParseState` (`mgba_environment_client.py`) -/

/-- The state dictionary built by `ParseState` / `GetErrorState`.  The error
dictionary's `"reward": "UNKNOWN"` is modelled as `reward = none` (the success
path stores the reward accumulator snapshot); its misspelled key
`"direction:"` means the error dict carries no usable direction, modelled as
the `"UNKNOWN"` default a reader would get. -/
structure Observation where
  x : Int
  y : Int
  mapBank : Int
  mapNum : Int
  isInBattle : Bool
  isDone : Bool
  lastAction : String
  currentSteps : Int
  direction : String
  reward : Option ℚ
  error : Bool
deriving DecidableEq

namespace RewardSystem

/-- The tile key `(state['x'], state['y'], state['mapBank'], state['mapNum'])`. -/
def posKey (st : Observation) : TileKey := (st.x, st.y, st.mapBank, st.mapNum)

/-- `UpdateRewardAction(state)`: tile novelty check, goal check, then the
unconditional `reward -= 0.1`; returns the updated system and the accumulator
it returns. -/
def UpdateRewardAction (rs : RewardSystem) (st : Observation) : RewardSystem × ℚ :=
  let rs1 := rs.CheckTileRecord (posKey st)
  let rs2 := rs1.CheckMapGoal (posKey st)
  let rs3 := { rs2 with reward := rs2.reward - 1/10 }
  (rs3, rs3.reward)

/-- `Reset()`: clear visited tiles and visited goals, zero the accumulator,
re-seed the pending goals via `InitGoalMaps`. -/
def Reset (_rs : RewardSystem) : RewardSystem :=
  ⟨[], 0, 0, seedGoals, []⟩

/-- Running a sequence of `UpdateRewardAction` calls. -/
def runUpdates (rs : RewardSystem) : List Observation → RewardSystem
  | [] => rs
  | st :: rest => runUpdates (rs.UpdateRewardAction st).1 rest

/-- Whether the novelty bonus fires for `st` on the current system. -/
def tileBonusGranted (rs : RewardSystem) (st : Observation) : Prop :=
  posKey st ∉ rs.visitedTiles

instance (rs : RewardSystem) (st : Observation) :
    Decidable (tileBonusGranted rs st) := by
  unfold tileBonusGranted; infer_instance

/-- The goal bonus `UpdateRewardAction` awards for `st` on the current system. -/
def goalBonus (rs : RewardSystem) (st : Observation) : ℚ :=
  match findGoal rs.pendingGoalLocation st.mapBank st.mapNum with
  | none => 0
  | some (g, _) => g.reward

/-- Number of steps of the trace on which goal `g` is the one consumed. -/
def goalGrantCount (rs : RewardSystem) : List Observation → Goal → Nat
  | [], _ => 0
  | st :: rest, g =>
    (if (findGoal rs.pendingGoalLocation st.mapBank st.mapNum).map Prod.fst
        = some g then 1 else 0)
      + goalGrantCount (rs.UpdateRewardAction st).1 rest g

/-- Multiplicity of a goal in a goal list (a Python set never exceeds 1). -/
def goalCount (g : Goal) : List Goal → Nat
  | [] => 0
  | h :: t => (if h = g then 1 else 0) + goalCount g t

/-- Reward-system states reachable from a `Reset()` by `UpdateRewardAction`
calls (one episode). -/
inductive ReachableRS : RewardSystem → Prop
  | reset (rs : RewardSystem) : ReachableRS rs.Reset
  | step (rs : RewardSystem) (st : Observation) :
      ReachableRS rs → ReachableRS (rs.UpdateRewardAction st).1

end RewardSystem

/-! String primitives: Python's `str.split`, `str.startswith`, slicing,
`str.lower`/`str.upper`, `str.strip` and `int()` modelled over `String.data`
(structural, so they evaluate in the kernel). -/

/-- Python `s.split(sep)` for a one-character separator, over char lists:
`"".split(",") == [""]`, empty pieces are kept. -/
def pySplitAux (sep : Char) : List Char → List Char → List String
  | [], acc => [String.mk acc.reverse]
  | c :: rest, acc =>
    if c = sep then String.mk acc.reverse :: pySplitAux sep rest []
    else pySplitAux sep rest (c :: acc)

/-- Python `s.split(sep)` (one-character separator). -/
def pySplit (s : String) (sep : Char) : List String := pySplitAux sep s.data []

/-- Python `s.startswith(tag)`. -/
def pyStartsAux : List Char → List Char → Bool
  | [], _ => true
  | _ :: _, [] => false
  | p :: ps, c :: cs => p = c && pyStartsAux ps cs

/-- Python `s.startswith(tag)`. -/
def pyStarts (s tag : String) : Bool := pyStartsAux tag.data s.data

/-- Python slicing `s[n:]`. -/
def pyDrop (s : String) (n : Nat) : String := String.mk (s.data.drop n)

/-- Python `s.lower()`. -/
def pyLower (s : String) : String := String.mk (s.data.map Char.toLower)

/-- Python `s.upper()`. -/
def pyUpper (s : String) : String := String.mk (s.data.map Char.toUpper)

/-- Decimal digit run value: `none` unless the list is a nonempty run of
ASCII digits. -/
def digitsVal : List Char → Option Nat
  | [] => none
  | l => digitsValAux 0 l
where
  /-- accumulate digits, failing on a non-digit -/
  digitsValAux : Nat → List Char → Option Nat
    | acc, [] => some acc
    | acc, c :: cs =>
      if c.isDigit then digitsValAux (acc * 10 + (c.toNat - 48)) cs else none

/-- Model of Python `int(s)`: strip surrounding whitespace, optional sign,
decimal digits.  (Underscore digit grouping, which Python also accepts, is
not modelled; no claim depends on it.) -/
def pyInt (s : String) : Option Int :=
  let t := ((s.data.dropWhile Char.isWhitespace).reverse.dropWhile
              Char.isWhitespace).reverse
  match t with
  | '-' :: rest => (digitsVal rest).map (fun n => -(n : Int))
  | '+' :: rest => (digitsVal rest).map (fun n => (n : Int))
  | l => (digitsVal l).map (fun n => (n : Int))

namespace MGBAEnvironment

/-- `GetErrorState()` (`mgba_environment_client.py`). -/
def GetErrorState : Observation :=
  { x := -1, y := -1, mapBank := -1, mapNum := -1,
    isInBattle := false, isDone := false,
    lastAction := "UNKNOWN_CLIENT", currentSteps := -1,
    direction := "UNKNOWN", reward := none, error := true }

/-- `ParseState(response)` (`mgba_environment_client.py`).  `response = none`
models a failed/timed-out `SendCommand`; `rewardSnapshot` is the
`self.rewardSystem.GetReward()` read on the success path.  Every failure
(missing, empty, `ERROR:`-tagged, untagged, wrong field count, unparsable
int field) returns `GetErrorState` — the `try/except` means no exception
escapes. -/
def ParseState (rewardSnapshot : ℚ) (response : Option String) : Observation :=
  match response with
  | none => GetErrorState
  | some s =>
    if s = "" then GetErrorState
    else if pyStarts s "ERROR:" then GetErrorState
    else if ¬ pyStarts s "STATE:" then GetErrorState
    else
      let data := pySplit (pyDrop s 6) ','
      if data.length = 9 then
        match pyInt (data.getD 0 ""), pyInt (data.getD 1 ""),
              pyInt (data.getD 2 ""), pyInt (data.getD 3 ""),
              pyInt (data.getD 7 "") with
        | some x0, some y0, some mb, some mn, some cs =>
          { x := x0, y := y0, mapBank := mb, mapNum := mn,
            isInBattle := pyLower (data.getD 4 "") = "true",
            isDone := pyLower (data.getD 5 "") = "true",
            lastAction := pyUpper (data.getD 6 ""),
            currentSteps := cs,
            direction := pyUpper (data.getD 8 ""),
            reward := some rewardSnapshot, error := false }
        | _, _, _, _, _ => GetErrorState
      else GetErrorState

/-- The assignment `self.isDone = data[5].lower() == "true"` happens exactly
when the guards pass and the field count is 9 (even if a later `int()` fails):
`some d` is the value written, `none` means `isDone` is left unchanged. -/
def parseDoneEffect (response : Option String) : Option Bool :=
  match response with
  | none => none
  | some s =>
    if s = "" then none
    else if pyStarts s "ERROR:" then none
    else if ¬ pyStarts s "STATE:" then none
    else
      let data := pySplit (pyDrop s 6) ','
      if data.length = 9 then some (pyLower (data.getD 5 "") = "true")
      else none

/-- The condition under which `ParseState` takes an error exit: response
missing, empty, `ERROR:`-tagged, untagged, wrong comma-field count, or an
unparsable int field. -/
def badResponse (response : Option String) : Prop :=
  match response with
  | none => True
  | some s =>
    s = "" ∨ pyStarts s "ERROR:" = true ∨ pyStarts s "STATE:" = false ∨
    (pySplit (pyDrop s 6) ',').length ≠ 9 ∨
    pyInt ((pySplit (pyDrop s 6) ',').getD 0 "") = none ∨
    pyInt ((pySplit (pyDrop s 6) ',').getD 1 "") = none ∨
    pyInt ((pySplit (pyDrop s 6) ',').getD 2 "") = none ∨
    pyInt ((pySplit (pyDrop s 6) ',').getD 3 "") = none ∨
    pyInt ((pySplit (pyDrop s 6) ',').getD 7 "") = none

/-- `self.actions` of `MGBAEnvironment`. -/
def envActions : List String :=
  ["UP", "LEFT", "DOWN", "RIGHT", "A", "B", "START", "SELECT", "L", "R"]

end MGBAEnvironment

/-- The client-side environment state relevant to the step pipeline: the
`isDone` flag and the owned `RewardSystem` (sockets and CSV logging are
external I/O and are not part of the state the claims are about). -/
structure MGBAEnvironment where
  isDone : Bool
  rewardSystem : RewardSystem

namespace MGBAEnvironment

/-- `Step(action)` (`mgba_environment_client.py`): uppercase the action and
reject it (error observation, no reward update) when it is not in
`self.actions`; otherwise parse the server's response (`response = none`
models a timeout / send failure), run `UpdateRewardAction` on the parsed
state, and return `self.ParseState(response)` — a second parse, so the
returned observation's reward snapshot is the updated accumulator. -/
def Step (env : MGBAEnvironment) (action : String) (response : Option String) :
    MGBAEnvironment × Observation :=
  let act := pyUpper action
  if act ∉ envActions then (env, GetErrorState)
  else
    let st := ParseState env.rewardSystem.reward response
    let env1 := { env with isDone := (parseDoneEffect response).getD env.isDone }
    let rs2 := (env1.rewardSystem.UpdateRewardAction st).1
    ({ env1 with rewardSystem := rs2 }, ParseState rs2.reward response)

end MGBAEnvironment

/-! ### Concrete instances used by witnesses and counterexamples -/

/-- A one-action table over state space `ℤ`, initially empty. -/
def qInt0 : QTable Int := ⟨[0], []⟩

/-- A table with one stored state `7` holding value `5` at action `0`. -/
def qInt5 : QTable Int := ⟨[0], [(7, [(0, 5)])]⟩

/-- An agent satisfying the claim's hypotheses of C4 as stated (decay in
`(0,1]`, epsilon ≥ epsilon_min) on which `DecayEpsilon` increases epsilon. -/
def c4agent : QLearningAgent :=
  { alpha := 1/10, gamma := 99/100, epsilon := -1, epsilon_min := -5,
    epsilon_decay := 1/2, q_table := ⟨ALL_ACTIONS, []⟩ }

/-- The default agent with `epsilon` forced to `0`. -/
def c7agent : QLearningAgent :=
  { alpha := 1/10, gamma := 99/100, epsilon := 0, epsilon_min := 1/20,
    epsilon_decay := 9995/10000, q_table := ⟨ALL_ACTIONS, []⟩ }

/-- A policy-state table with a single stored state and one action binding. -/
def qExport1 : QTable PolicyState := ⟨ALL_ACTIONS, [((1, 2, 3, 4, 0, 5), [(0, 7)])]⟩

/-- A freshly reset environment. -/
def envReset : MGBAEnvironment := ⟨false, RewardSystem.init.Reset⟩

/-- An observation sitting on the seeded goal map `(mapBank 0, mapNum 16)`. -/
def obsGoal016 : Observation :=
  { x := 3, y := 4, mapBank := 0, mapNum := 16, isInBattle := false,
    isDone := false, lastAction := "A", currentSteps := 1,
    direction := "DOWN", reward := some 0, error := false }

/-! ## Lemmas about the table primitives -/

section QTableLemmas

variable {σ : Type} [DecidableEq σ]

theorem tableLookup_append_of_some {l : List (σ × Row)} {s : σ} {r : Row}
    (h : tableLookup l s = some r) (rest : List (σ × Row)) :
    tableLookup (l ++ rest) s = some r := by
  induction l with
  | nil => simp [tableLookup] at h
  | cons hd tl ih =>
    obtain ⟨t, r0⟩ := hd
    by_cases ht : t = s
    · simp [tableLookup, ht] at h ⊢; exact h
    · simp [tableLookup, ht] at h ⊢; exact ih h

theorem tableLookup_append_of_none {l : List (σ × Row)} {s : σ}
    (h : tableLookup l s = none) (rest : List (σ × Row)) :
    tableLookup (l ++ rest) s = tableLookup rest s := by
  induction l with
  | nil => simp
  | cons hd tl ih =>
    obtain ⟨t, r0⟩ := hd
    by_cases ht : t = s
    · simp [tableLookup, ht] at h
    · simp [tableLookup, ht] at h ⊢; exact ih h

theorem QTable.touch_actions (q : QTable σ) (t : σ) :
    (q.touch t).actions = q.actions := by
  unfold QTable.touch; split <;> rfl

theorem QTable.getRowD_touch (q : QTable σ) (t s : σ) :
    (q.touch t).getRowD s = q.getRowD s := by
  unfold QTable.touch
  cases h : tableLookup q.table t with
  | some r => rfl
  | none =>
    unfold QTable.getRowD
    simp only
    cases h2 : tableLookup q.table s with
    | some r => rw [tableLookup_append_of_some h2]
    | none =>
      rw [tableLookup_append_of_none h2]
      by_cases hts : t = s
      · subst hts; simp [tableLookup, h2, h]
      · simp [tableLookup, hts, h2]

theorem QTable.GetQTable_touch (q : QTable σ) (t s : σ) (a : Int) :
    (q.touch t).GetQTable s a = q.GetQTable s a := by
  unfold QTable.GetQTable; rw [QTable.getRowD_touch]

theorem tableLookup_tableSet_self (l : List (σ × Row)) (s : σ) (row : Row) :
    tableLookup (tableSet l s row) s = some row := by
  induction l with
  | nil => simp [tableSet, tableLookup]
  | cons hd tl ih =>
    obtain ⟨t, r0⟩ := hd
    by_cases ht : t = s
    · simp [tableSet, ht, tableLookup]
    · simp [tableSet, ht, tableLookup, ih]

theorem tableLookup_tableSet_ne (l : List (σ × Row)) {s t : σ} (h : t ≠ s)
    (row : Row) : tableLookup (tableSet l s row) t = tableLookup l t := by
  induction l with
  | nil => simp [tableSet, tableLookup, Ne.symm h]
  | cons hd tl ih =>
    obtain ⟨u, r0⟩ := hd
    by_cases hu : u = s
    · subst hu
      simp [tableSet, tableLookup, Ne.symm h]
    · by_cases hut : u = t
      · subst hut; simp [tableSet, hu, tableLookup]
      · simp [tableSet, hu, tableLookup, hut, ih]

theorem rowLookup_rowSet_self (row : Row) (a : Int) (v : ℚ) :
    rowLookup (rowSet row a v) a = some v := by
  induction row with
  | nil => simp [rowSet, rowLookup]
  | cons hd tl ih =>
    obtain ⟨b, w⟩ := hd
    by_cases hb : b = a
    · simp [rowSet, hb, rowLookup]
    · simp [rowSet, hb, rowLookup, ih]

theorem rowLookup_rowSet_ne (row : Row) {a b : Int} (h : b ≠ a) (v : ℚ) :
    rowLookup (rowSet row a v) b = rowLookup row b := by
  induction row with
  | nil => simp [rowSet, rowLookup, Ne.symm h]
  | cons hd tl ih =>
    obtain ⟨c, w⟩ := hd
    by_cases hc : c = a
    · subst hc
      simp [rowSet, rowLookup, Ne.symm h]
    · by_cases hcb : c = b
      · subst hcb; simp [rowSet, hc, rowLookup]
      · simp [rowSet, hc, rowLookup, hcb, ih]

theorem QTable.SetQTable_actions (q : QTable σ) (s : σ) (a : Int) (v : ℚ) :
    (q.SetQTable s a v).actions = q.actions := by
  unfold QTable.SetQTable
  simp only
  exact q.touch_actions s

theorem QTable.getRowD_SetQTable_self (q : QTable σ) (s : σ) (a : Int) (v : ℚ) :
    (q.SetQTable s a v).getRowD s = rowSet (q.getRowD s) a v := by
  unfold QTable.SetQTable QTable.getRowD
  simp only [tableLookup_tableSet_self, Option.getD_some]

theorem QTable.getRowD_SetQTable_ne (q : QTable σ) {s t : σ} (h : t ≠ s)
    (a : Int) (v : ℚ) : (q.SetQTable s a v).getRowD t = q.getRowD t := by
  have h1 : tableLookup (q.SetQTable s a v).table t
      = tableLookup (q.touch s).table t := by
    show tableLookup (tableSet (q.touch s).table s (rowSet (q.getRowD s) a v)) t
        = tableLookup (q.touch s).table t
    exact tableLookup_tableSet_ne _ h _
  unfold QTable.getRowD
  rw [h1, QTable.SetQTable_actions]
  have h2 := q.getRowD_touch s t
  unfold QTable.getRowD at h2
  rw [QTable.touch_actions] at h2
  exact h2

theorem QTable.GetQTable_SetQTable_self (q : QTable σ) (s : σ) (a : Int) (v : ℚ) :
    (q.SetQTable s a v).GetQTable s a = some v := by
  unfold QTable.GetQTable
  rw [QTable.getRowD_SetQTable_self, rowLookup_rowSet_self]

theorem QTable.GetQTable_SetQTable_ne (q : QTable σ) {s t : σ} {a b : Int}
    (h : ¬(t = s ∧ b = a)) (v : ℚ) :
    (q.SetQTable s a v).GetQTable t b = q.GetQTable t b := by
  by_cases hts : t = s
  · subst hts
    have hb : b ≠ a := fun e => h ⟨rfl, e⟩
    unfold QTable.GetQTable
    rw [QTable.getRowD_SetQTable_self, rowLookup_rowSet_ne _ hb]
  · unfold QTable.GetQTable
    rw [QTable.getRowD_SetQTable_ne q hts]

theorem rowLookup_defaultRow {acts : List Int} {a : Int} (h : a ∈ acts) :
    rowLookup (QTable.defaultRow acts) a = some 0 := by
  induction acts with
  | nil => simp at h
  | cons b tl ih =>
    by_cases hb : b = a
    · simp [QTable.defaultRow, rowLookup, hb]
    · rcases List.mem_cons.mp h with h' | h'
      · exact absurd h'.symm hb
      · simpa [QTable.defaultRow, rowLookup, hb] using ih h'

theorem valsMax_eq_none_iff (row : Row) : valsMax row = none ↔ row = [] := by
  cases row with
  | nil => simp [valsMax]
  | cons hd tl =>
    simp only [valsMax]
    cases valsMax tl <;> simp

end QTableLemmas

section UpdateLemmas

variable {σ : Type} [DecidableEq σ]

theorem QTable.Update_success (q : QTable σ) (s ns : σ) (a : Int)
    (r alpha gamma cur m : ℚ) (hcur : q.GetQTable s a = some cur)
    (hm : valsMax (q.getRowD ns) = some m) :
    q.Update s a r ns alpha gamma
      = (((q.touch s).touch ns).SetQTable s a
          (cur + alpha * (r + gamma * m - cur)), true) := by
  have hm' : valsMax ((q.touch s).getRowD ns) = some m := by
    rw [QTable.getRowD_touch]; exact hm
  unfold QTable.Update
  simp only [hcur, hm']

/-- Linear interpolation `cur + alpha * (T - cur)` lands weakly between `cur`
and `T` for `alpha ∈ (0,1]`, and strictly when `alpha < 1` and `cur ≠ T`. -/
theorem lerp_between (cur T alpha : ℚ) (h0 : 0 < alpha) (h1 : alpha ≤ 1) :
    (min cur T ≤ cur + alpha * (T - cur) ∧ cur + alpha * (T - cur) ≤ max cur T) ∧
    (alpha < 1 → cur ≠ T →
      min cur T < cur + alpha * (T - cur) ∧ cur + alpha * (T - cur) < max cur T) := by
  rcases le_total cur T with h | h
  · rw [min_eq_left h, max_eq_right h]
    constructor
    · constructor
      · nlinarith [mul_nonneg h0.le (sub_nonneg.2 h)]
      · nlinarith [mul_nonneg (sub_nonneg.2 h1) (sub_nonneg.2 h)]
    · intro hlt hne
      have hct : cur < T := lt_of_le_of_ne h hne
      constructor
      · nlinarith [mul_pos h0 (sub_pos.2 hct)]
      · nlinarith [mul_pos (sub_pos.2 hlt) (sub_pos.2 hct)]
  · rw [min_eq_right h, max_eq_left h]
    constructor
    · constructor
      · nlinarith [mul_nonneg (sub_nonneg.2 h1) (sub_nonneg.2 h)]
      · nlinarith [mul_nonneg h0.le (sub_nonneg.2 h)]
    · intro hlt hne
      have htc : T < cur := lt_of_le_of_ne h (fun e => hne e.symm)
      constructor
      · nlinarith [mul_pos (sub_pos.2 hlt) (sub_pos.2 htc)]
      · nlinarith [mul_pos h0 (sub_pos.2 htc)]

end UpdateLemmas

/-! ## Claim C1 -/

/-- C1 as stated is false: with `alpha = 1` the updated value equals the
target `reward + gamma * maxNext` instead of lying strictly below it.  On the
empty one-action table over `ℤ`, `Update(0, 0, reward=1, 0→1, alpha=1,
gamma=0)` has old value `0` and target `1 + 0*0 = 1`, yet `Get(0,0)`
afterwards returns exactly `1`, which is not strictly between `0` and `1`. -/
theorem C1_counterexample :
    (qInt0.Update 0 0 1 1 1 0).1.GetQTable 0 0 = some 1 ∧
    ¬ ∃ v : ℚ, (qInt0.Update 0 0 1 1 1 0).1.GetQTable 0 0 = some v ∧
        (0 : ℚ) < v ∧ v < 1 := by
  have hcur : qInt0.GetQTable 0 0 = some 0 := by decide
  have hm : valsMax (qInt0.getRowD 1) = some 0 := by decide
  have hupd := QTable.Update_success qInt0 0 1 0 1 1 0 0 0 hcur hm
  have hget : (qInt0.Update 0 0 1 1 1 0).1.GetQTable 0 0
      = some (0 + 1 * (1 + 0 * 0 - 0)) := by
    rw [hupd]; exact QTable.GetQTable_SetQTable_self _ _ _ _
  have hval : (0 : ℚ) + 1 * (1 + 0 * 0 - 0) = 1 := by norm_num
  rw [hval] at hget
  refine ⟨hget, ?_⟩
  rintro ⟨v, hv, _, hv1⟩
  rw [hget] at hv
  cases hv
  exact absurd hv1 (by norm_num)

/-- C1 (amended): for `alpha ∈ (0,1]`, `Update` followed by `Get` at the same
`(state, action)` returns `cur + alpha * (target - cur)` where
`target = reward + gamma * maxNext`; this value lies weakly between the old
value and the target, and strictly between them whenever `alpha < 1` and the
old value differs from the target (with `alpha = 1` it equals the target, and
when old value = target it stays put). -/
theorem C1_update_get_between {σ : Type} [DecidableEq σ] (q : QTable σ)
    (s ns : σ) (a : Int) (r alpha gamma cur m : ℚ)
    (hcur : q.GetQTable s a = some cur)
    (hm : (q.MaxActionValue ns).1 = some m)
    (h0 : 0 < alpha) (h1 : alpha ≤ 1) :
    (q.Update s a r ns alpha gamma).1.GetQTable s a
        = some (cur + alpha * (r + gamma * m - cur)) ∧
    min cur (r + gamma * m) ≤ cur + alpha * (r + gamma * m - cur) ∧
    cur + alpha * (r + gamma * m - cur) ≤ max cur (r + gamma * m) ∧
    (alpha < 1 → cur ≠ r + gamma * m →
      min cur (r + gamma * m) < cur + alpha * (r + gamma * m - cur) ∧
      cur + alpha * (r + gamma * m - cur) < max cur (r + gamma * m)) := by
  have hm' : valsMax (q.getRowD ns) = some m := hm
  have hupd := QTable.Update_success q s ns a r alpha gamma cur m hcur hm'
  have hget : (q.Update s a r ns alpha gamma).1.GetQTable s a
      = some (cur + alpha * (r + gamma * m - cur)) := by
    rw [hupd]; exact QTable.GetQTable_SetQTable_self _ _ _ _
  obtain ⟨⟨hw1, hw2⟩, hs⟩ := lerp_between cur (r + gamma * m) alpha h0 h1
  exact ⟨hget, hw1, hw2, hs⟩

/-- Witness for C1: the amended theorem applied to the empty one-action table
with `alpha = 1/2`, `gamma = 0`, `reward = 1`: the new value is `1/2`,
strictly between old value `0` and target `1`. -/
theorem C1_update_get_between_witness :
    (qInt0.GetQTable 0 0 = some 0 ∧ (qInt0.MaxActionValue 1).1 = some 0 ∧
      (0 : ℚ) < 1/2 ∧ (1/2 : ℚ) ≤ 1) ∧
    ((qInt0.Update 0 0 1 1 (1/2) 0).1.GetQTable 0 0
        = some (0 + (1/2) * (1 + 0 * 0 - 0)) ∧
      min (0 : ℚ) (1 + 0 * 0) ≤ 0 + (1/2) * (1 + 0 * 0 - 0) ∧
      (0 : ℚ) + (1/2) * (1 + 0 * 0 - 0) ≤ max (0 : ℚ) (1 + 0 * 0) ∧
      ((1/2 : ℚ) < 1 → (0 : ℚ) ≠ 1 + 0 * 0 →
        min (0 : ℚ) (1 + 0 * 0) < 0 + (1/2) * (1 + 0 * 0 - 0) ∧
        (0 : ℚ) + (1/2) * (1 + 0 * 0 - 0) < max (0 : ℚ) (1 + 0 * 0))) :=
  ⟨⟨by decide, by decide, by norm_num, by norm_num⟩,
    C1_update_get_between qInt0 0 1 0 1 (1/2) 0 0 0 (by decide) (by decide)
      (by norm_num) (by norm_num)⟩

/-! ## Claim C10 -/

/-- C10: `Update(s, a, r, ns, alpha, gamma)` changes no readable entry other
than `(s, a)`: for every `(t, b) ≠ (s, a)`, `GetQTable(t, b)` returns the same
value after the update as before — on the success path and on both exception
paths (where only default rows are materialized). -/
theorem C10_update_frame {σ : Type} [DecidableEq σ] (q : QTable σ)
    (s ns t : σ) (a b : Int) (r alpha gamma : ℚ) (h : ¬(t = s ∧ b = a)) :
    (q.Update s a r ns alpha gamma).1.GetQTable t b = q.GetQTable t b := by
  unfold QTable.Update
  cases hc : q.GetQTable s a with
  | none =>
    simp only [hc]
    exact QTable.GetQTable_touch q s t b
  | some cur =>
    cases hm : valsMax ((q.touch s).getRowD ns) with
    | none =>
      simp only [hc, hm]
      rw [QTable.GetQTable_touch, QTable.GetQTable_touch]
    | some m =>
      simp only [hc, hm]
      rw [QTable.GetQTable_SetQTable_ne _ h, QTable.GetQTable_touch,
        QTable.GetQTable_touch]

/-- Witness for C10: updating `(0, 0)` on the table storing `5` at `(7, 0)`
leaves `Get(7, 0) = 5` unchanged. -/
theorem C10_update_frame_witness :
    ¬((7 : Int) = 0 ∧ (0 : Int) = 0) ∧
    (qInt5.Update 0 0 1 1 (1/2) 0).1.GetQTable 7 0 = qInt5.GetQTable 7 0 :=
  ⟨by decide, C10_update_frame qInt5 0 1 7 0 0 1 (1/2) 0 (by decide)⟩

/-! ## Claim C5 -/

/-- C5: `SaveQTable` followed by `LoadQTable` reproduces the table exactly —
the loaded table is the saved one (pickle round-trips the stored entries
exactly, and the values are embedded exactly as `ℚ`), every `(state, action)`
read is unchanged, and a state absent from the loaded data still reads the
lazy default `0.0` for every action. -/
theorem C5_save_load_roundtrip :
    (∀ (σ : Type) [DecidableEq σ] (q : QTable σ),
        q.LoadQTable q.SaveQTable = q) ∧
    (∀ (σ : Type) [DecidableEq σ] (q : QTable σ) (s : σ) (a : Int),
        (q.LoadQTable q.SaveQTable).GetQTable s a = q.GetQTable s a) ∧
    (∀ (σ : Type) [DecidableEq σ] (q : QTable σ) (data : List (σ × Row)) (s : σ),
        tableLookup data s = none → ∀ a ∈ q.actions,
          (q.LoadQTable data).GetQTable s a = some 0) := by
  refine ⟨fun σ _ q => rfl, fun σ _ q s a => rfl, fun σ _ q data s hs a ha => ?_⟩
  unfold QTable.LoadQTable QTable.GetQTable QTable.getRowD
  simp only [hs, Option.getD_none]
  exact rowLookup_defaultRow ha

/-- Witness for C5: round trip on the table storing `5` at `(7, 0)`, and the
lazy default read of absent state `3` after loading empty data. -/
theorem C5_save_load_roundtrip_witness :
    (qInt5.LoadQTable qInt5.SaveQTable).GetQTable 7 0 = qInt5.GetQTable 7 0 ∧
    (tableLookup ([] : List (Int × Row)) 3 = none ∧ (0 : Int) ∈ qInt5.actions) ∧
    (qInt5.LoadQTable []).GetQTable 3 0 = some 0 :=
  ⟨C5_save_load_roundtrip.2.1 Int qInt5 7 0, ⟨by decide, by decide⟩,
    C5_save_load_roundtrip.2.2 Int qInt5 [] 3 (by decide) 0 (by decide)⟩

/-! ## Claim C4 -/

theorem QLearningAgent.DecayEpsilon_hyper (ag : QLearningAgent) :
    (ag.DecayEpsilon).epsilon_min = ag.epsilon_min ∧
    (ag.DecayEpsilon).epsilon_decay = ag.epsilon_decay := by
  unfold QLearningAgent.DecayEpsilon; split <;> exact ⟨rfl, rfl⟩

theorem QLearningAgent.DecayEpsilon_step (ag : QLearningAgent)
    (h0 : 0 < ag.epsilon_decay) (h1 : ag.epsilon_decay ≤ 1)
    (hε : 0 ≤ ag.epsilon) (hmin : ag.epsilon_min ≤ ag.epsilon) :
    (ag.DecayEpsilon).epsilon ≤ ag.epsilon ∧ 0 ≤ (ag.DecayEpsilon).epsilon ∧
    ag.epsilon_min ≤ (ag.DecayEpsilon).epsilon := by
  unfold QLearningAgent.DecayEpsilon
  split
  · rename_i hc
    refine ⟨max_le (mul_le_of_le_one_right hε h1) (le_of_lt hc), ?_, le_max_right _ _⟩
    exact le_trans (mul_nonneg hε h0.le) (le_max_left _ _)
  · exact ⟨le_refl _, hε, hmin⟩

theorem QLearningAgent.decayIter_inv (ag : QLearningAgent)
    (h0 : 0 < ag.epsilon_decay) (h1 : ag.epsilon_decay ≤ 1)
    (hε : 0 ≤ ag.epsilon) (hmin : ag.epsilon_min ≤ ag.epsilon) (n : Nat) :
    0 ≤ (ag.decayIter n).epsilon ∧
    ag.epsilon_min ≤ (ag.decayIter n).epsilon ∧
    (ag.decayIter n).epsilon_decay = ag.epsilon_decay ∧
    (ag.decayIter n).epsilon_min = ag.epsilon_min := by
  induction n with
  | zero => exact ⟨hε, hmin, rfl, rfl⟩
  | succ n ih =>
    obtain ⟨ih0, ihmin, ihd, ihm⟩ := ih
    have hstep := QLearningAgent.DecayEpsilon_step (ag.decayIter n)
      (ihd ▸ h0) (ihd ▸ h1) ih0 (ihm ▸ ihmin)
    have hh := QLearningAgent.DecayEpsilon_hyper (ag.decayIter n)
    exact ⟨hstep.2.1, by rw [show (ag.decayIter (n+1)) = (ag.decayIter n).DecayEpsilon from rfl, hh.1] at *; exact ihm ▸ hstep.2.2,
      by rw [show (ag.decayIter (n+1)) = (ag.decayIter n).DecayEpsilon from rfl, hh.2, ihd],
      by rw [show (ag.decayIter (n+1)) = (ag.decayIter n).DecayEpsilon from rfl, hh.1, ihm]⟩

/-- C4 as stated is false: its hypotheses (`epsilon_decay ∈ (0,1]`, initial
`epsilon ≥ epsilon_min`) admit an agent with negative epsilon, and then
`DecayEpsilon` *increases* epsilon: with `epsilon = -1`, `epsilon_min = -5`,
`epsilon_decay = 1/2`, the call yields `max(-1 * 1/2, -5) = -1/2 > -1`. -/
theorem C4_counterexample :
    (0 < c4agent.epsilon_decay ∧ c4agent.epsilon_decay ≤ 1 ∧
      c4agent.epsilon_min ≤ c4agent.epsilon) ∧
    ¬ ((c4agent.DecayEpsilon).epsilon ≤ c4agent.epsilon) := by
  have hd : (c4agent.DecayEpsilon).epsilon = -1/2 := by
    unfold QLearningAgent.DecayEpsilon c4agent
    norm_num
  refine ⟨⟨by norm_num [c4agent], by norm_num [c4agent], by norm_num [c4agent]⟩, ?_⟩
  rw [hd]
  norm_num [c4agent]

/-- C4 (amended): for every agent whose `epsilon_decay` lies in `(0,1]` and
whose initial `epsilon` is at least `epsilon_min` *and nonnegative*, across
any sequence of `DecayEpsilon` calls epsilon is monotonically non-increasing
and never falls below `epsilon_min`. -/
theorem C4_epsilon_monotone (ag : QLearningAgent)
    (h0 : 0 < ag.epsilon_decay) (h1 : ag.epsilon_decay ≤ 1)
    (hε : 0 ≤ ag.epsilon) (hmin : ag.epsilon_min ≤ ag.epsilon) (n : Nat) :
    (ag.decayIter (n + 1)).epsilon ≤ (ag.decayIter n).epsilon ∧
    ag.epsilon_min ≤ (ag.decayIter n).epsilon := by
  obtain ⟨i0, imin, id_, im⟩ := QLearningAgent.decayIter_inv ag h0 h1 hε hmin n
  have hstep := QLearningAgent.DecayEpsilon_step (ag.decayIter n)
    (id_ ▸ h0) (id_ ▸ h1) i0 (im ▸ imin)
  exact ⟨hstep.1, imin⟩

/-- Witness for C4: the constructor-default agent
(`epsilon=1, epsilon_min=0.05, epsilon_decay=0.9995`) after one decay step. -/
theorem C4_epsilon_monotone_witness :
    (0 < QLearningAgent.mkDefault.epsilon_decay ∧
      QLearningAgent.mkDefault.epsilon_decay ≤ 1 ∧
      0 ≤ QLearningAgent.mkDefault.epsilon ∧
      QLearningAgent.mkDefault.epsilon_min ≤ QLearningAgent.mkDefault.epsilon) ∧
    ((QLearningAgent.mkDefault.decayIter 1).epsilon
        ≤ (QLearningAgent.mkDefault.decayIter 0).epsilon ∧
      QLearningAgent.mkDefault.epsilon_min
        ≤ (QLearningAgent.mkDefault.decayIter 0).epsilon) :=
  ⟨⟨by norm_num [QLearningAgent.mkDefault], by norm_num [QLearningAgent.mkDefault],
     by norm_num [QLearningAgent.mkDefault], by norm_num [QLearningAgent.mkDefault]⟩,
    C4_epsilon_monotone QLearningAgent.mkDefault
      (by norm_num [QLearningAgent.mkDefault]) (by norm_num [QLearningAgent.mkDefault])
      (by norm_num [QLearningAgent.mkDefault]) (by norm_num [QLearningAgent.mkDefault]) 0⟩

/-! ## Claim C7 -/

theorem argmaxPair_eq_none_iff (l : Row) : argmaxPair l = none ↔ l = [] := by
  cases l with
  | nil => simp [argmaxPair]
  | cons hd tl =>
    simp only [argmaxPair]
    cases argmaxPair tl with
    | none => simp
    | some q => by_cases hq : q.2 > hd.2 <;> simp [hq]

theorem argmaxPair_ge {l : Row} {p : Int × ℚ} (h : argmaxPair l = some p) :
    ∀ x ∈ l, x.2 ≤ p.2 := by
  induction l generalizing p with
  | nil => simp [argmaxPair] at h
  | cons hd tl ih =>
    cases hm : argmaxPair tl with
    | none =>
      simp only [argmaxPair, hm] at h
      cases h
      have htl : tl = [] := (argmaxPair_eq_none_iff tl).1 hm
      subst htl
      intro x hx
      rcases List.mem_singleton.mp hx with rfl
      exact le_refl _
    | some q =>
      simp only [argmaxPair, hm] at h
      by_cases hq : q.2 > hd.2
      · rw [if_pos hq] at h
        cases h
        intro x hx
        rcases List.mem_cons.mp hx with rfl | hx'
        · exact le_of_lt hq
        · exact ih hm x hx'
      · rw [if_neg hq] at h
        cases h
        intro x hx
        rcases List.mem_cons.mp hx with rfl | hx'
        · exact le_refl _
        · exact le_trans (ih hm x hx') (not_lt.1 hq)

theorem argmaxPair_first {l : Row} {p : Int × ℚ} (h : argmaxPair l = some p) :
    ∃ l1 l2, l = l1 ++ p :: l2 ∧ ∀ x ∈ l1, x.2 < p.2 := by
  induction l generalizing p with
  | nil => simp [argmaxPair] at h
  | cons hd tl ih =>
    cases hm : argmaxPair tl with
    | none =>
      simp only [argmaxPair, hm] at h
      cases h
      exact ⟨[], tl, rfl, by simp⟩
    | some q =>
      simp only [argmaxPair, hm] at h
      by_cases hq : q.2 > hd.2
      · rw [if_pos hq] at h
        cases h
        obtain ⟨l1, l2, heq, hlt⟩ := ih hm
        refine ⟨hd :: l1, l2, by rw [heq]; rfl, ?_⟩
        intro x hx
        rcases List.mem_cons.mp hx with rfl | hx'
        · exact hq
        · exact hlt x hx'
      · rw [if_neg hq] at h
        cases h
        exact ⟨[], tl, rfl, by simp⟩

/-- C7: with `epsilon = 0` the exploration branch can never fire
(`random.random()` returns a value `≥ 0`), so `ChooseAction` returns the
first-seen action whose row value is maximal: its value is `≥` every value in
the row, and every entry before it in the row's insertion order is strictly
smaller (ties broken by first-seen order). -/
theorem C7_greedy_argmax (ag : QLearningAgent) (st : PolicyState)
    (randVal : ℚ) (randomChoice : Int) (hε : ag.epsilon = 0)
    (hr : 0 ≤ randVal) (hne : ag.q_table.getRowD st ≠ []) :
    ∃ p : Int × ℚ, (ag.ChooseAction st randVal randomChoice).1 = some p.1 ∧
      (∀ x ∈ ag.q_table.getRowD st, x.2 ≤ p.2) ∧
      ∃ l1 l2, ag.q_table.getRowD st = l1 ++ p :: l2 ∧ ∀ x ∈ l1, x.2 < p.2 := by
  have hcond : ¬ randVal < ag.epsilon := by rw [hε]; exact not_lt.2 hr
  cases hm : argmaxPair (ag.q_table.getRowD st) with
  | none => exact absurd ((argmaxPair_eq_none_iff _).1 hm) hne
  | some p =>
    refine ⟨p, ?_, argmaxPair_ge hm, argmaxPair_first hm⟩
    unfold QLearningAgent.ChooseAction
    rw [if_neg hcond, hm]
    rfl

/-- Witness for C7: the zero-epsilon agent on a fresh state — all six actions
read `0.0` and the first action of the row is returned as the (tied)
maximum. -/
theorem C7_greedy_argmax_witness :
    (c7agent.epsilon = 0 ∧ (0 : ℚ) ≤ 0 ∧
      c7agent.q_table.getRowD (0, 0, 0, 0, 0, 0) ≠ []) ∧
    (∃ p : Int × ℚ,
      (c7agent.ChooseAction (0, 0, 0, 0, 0, 0) 0 3).1 = some p.1 ∧
      (∀ x ∈ c7agent.q_table.getRowD (0, 0, 0, 0, 0, 0), x.2 ≤ p.2) ∧
      ∃ l1 l2, c7agent.q_table.getRowD (0, 0, 0, 0, 0, 0) = l1 ++ p :: l2 ∧
        ∀ x ∈ l1, x.2 < p.2) :=
  ⟨⟨rfl, le_refl 0, by decide⟩,
    C7_greedy_argmax c7agent (0, 0, 0, 0, 0, 0) 0 3 rfl (le_refl 0) (by decide)⟩

/-! ## Claim C8 -/

theorem exportRows_length (l : List (PolicyState × Row)) :
    (l.flatMap (fun sr => sr.2.map (fun av => csvDataRow sr.1 av.1 av.2))).length
      = (l.map (fun sr => sr.2.length)).sum := by
  induction l with
  | nil => rfl
  | cons hd tl ih => simp [List.flatMap_cons, ih]

/-- C8 as stated is false: the header's last column is `q_value`, not `value`.
On the empty table the export is exactly the header row, whose cells are
`pos_x, pos_y, map_bank, map_num, in_battle, direction, action, q_value`, and
this differs from the claimed header ending in `value`. -/
theorem C8_counterexample :
    QTable.ExportCSV (QTable.mk ALL_ACTIONS []) =
      [[Cell.str "pos_x", Cell.str "pos_y", Cell.str "map_bank",
        Cell.str "map_num", Cell.str "in_battle", Cell.str "direction",
        Cell.str "action", Cell.str "q_value"]] ∧
    QTable.ExportCSV (QTable.mk ALL_ACTIONS []) ≠
      [[Cell.str "pos_x", Cell.str "pos_y", Cell.str "map_bank",
        Cell.str "map_num", Cell.str "in_battle", Cell.str "direction",
        Cell.str "action", Cell.str "value"]] := by
  constructor
  · rfl
  · decide

/-- C8 (amended): `ExportCSV` writes exactly one header row with the columns
`pos_x, pos_y, map_bank, map_num, in_battle, direction, action, q_value`
(the last column is `q_value`, not `value`), followed by exactly one row per
stored `(state, action)` pair carrying the state's six components, the
action, and its value. -/
theorem C8_export_shape (q : QTable PolicyState) :
    (QTable.ExportCSV q).head? = some csvHeader ∧
    (QTable.ExportCSV q).length = 1 + (q.table.map (fun sr => sr.2.length)).sum ∧
    (∀ s row, (s, row) ∈ q.table → ∀ a v, (a, v) ∈ row →
        csvDataRow s a v ∈ (QTable.ExportCSV q).tail) ∧
    (∀ r ∈ (QTable.ExportCSV q).tail,
        ∃ s row a v, (s, row) ∈ q.table ∧ (a, v) ∈ row ∧ r = csvDataRow s a v) := by
  refine ⟨rfl, ?_, ?_, ?_⟩
  · show (csvHeader :: _).length = _
    rw [List.length_cons, exportRows_length]
    omega
  · intro s row hsr a v hav
    show csvDataRow s a v ∈ q.table.flatMap _
    exact List.mem_flatMap.2 ⟨(s, row), hsr,
      List.mem_map.2 ⟨(a, v), hav, rfl⟩⟩
  · intro r hr
    obtain ⟨sr, hsr, hmem⟩ := List.mem_flatMap.1 hr
    obtain ⟨av, hav, hrw⟩ := List.mem_map.1 hmem
    exact ⟨sr.1, sr.2, av.1, av.2, by simpa using hsr, by simpa using hav, hrw.symm⟩

/-- Witness for C8: the one-entry table — its export has the header first and
the single data row `1,2,3,4,0,5,0,7` in the tail. -/
theorem C8_export_shape_witness :
    ((qExport1.table.head?.isSome ∧
        ((1, 2, 3, 4, 0, 5), [((0 : Int), (7 : ℚ))]) ∈ qExport1.table ∧
        ((0 : Int), (7 : ℚ)) ∈ [((0 : Int), (7 : ℚ))]) ∧
      (QTable.ExportCSV qExport1).head? = some csvHeader) ∧
    csvDataRow (1, 2, 3, 4, 0, 5) 0 7 ∈ (QTable.ExportCSV qExport1).tail :=
  ⟨⟨⟨by decide, by decide, by decide⟩, (C8_export_shape qExport1).1⟩,
    (C8_export_shape qExport1).2.2.1 (1, 2, 3, 4, 0, 5) [((0 : Int), (7 : ℚ))]
      (by decide) 0 7 (by decide)⟩

/-! ## Lemmas about the reward system -/

namespace RewardSystem

theorem CheckTileRecord_pending (rs : RewardSystem) (pos : TileKey) :
    (rs.CheckTileRecord pos).pendingGoalLocation = rs.pendingGoalLocation := by
  unfold CheckTileRecord; split <;> rfl

theorem CheckTileRecord_visited (rs : RewardSystem) (pos : TileKey) :
    (rs.CheckTileRecord pos).visitedTiles
      = if pos ∈ rs.visitedTiles then rs.visitedTiles
        else pos :: rs.visitedTiles := by
  unfold CheckTileRecord; split <;> simp_all

theorem CheckTileRecord_reward (rs : RewardSystem) (pos : TileKey) :
    (rs.CheckTileRecord pos).reward
      = rs.reward + (if pos ∈ rs.visitedTiles then 0 else 1) := by
  unfold CheckTileRecord; split <;> simp_all

theorem CheckMapGoal_visited (rs : RewardSystem) (pos : TileKey) :
    (rs.CheckMapGoal pos).visitedTiles = rs.visitedTiles := by
  unfold CheckMapGoal; split <;> rfl

theorem CheckMapGoal_reward (rs : RewardSystem) (pos : TileKey) :
    (rs.CheckMapGoal pos).reward
      = rs.reward + (match findGoal rs.pendingGoalLocation pos.2.2.1 pos.2.2.2 with
          | none => 0
          | some (g, _) => g.reward) := by
  unfold CheckMapGoal
  cases h : findGoal rs.pendingGoalLocation pos.2.2.1 pos.2.2.2 with
  | none => simp
  | some p => obtain ⟨g, rest⟩ := p; simp

theorem CheckMapGoal_pending (rs : RewardSystem) (pos : TileKey) :
    (rs.CheckMapGoal pos).pendingGoalLocation
      = match findGoal rs.pendingGoalLocation pos.2.2.1 pos.2.2.2 with
        | none => rs.pendingGoalLocation
        | some (_, rest) => rest := by
  unfold CheckMapGoal
  cases h : findGoal rs.pendingGoalLocation pos.2.2.1 pos.2.2.2 with
  | none => simp
  | some p => obtain ⟨g, rest⟩ := p; simp

theorem UpdateRewardAction_reward (rs : RewardSystem) (st : Observation) :
    (rs.UpdateRewardAction st).1.reward
      = rs.reward + (if posKey st ∈ rs.visitedTiles then 0 else 1)
        + rs.goalBonus st - 1/10 := by
  unfold UpdateRewardAction
  simp only [CheckMapGoal_reward, CheckTileRecord_reward, CheckTileRecord_pending,
    goalBonus]
  rfl

theorem UpdateRewardAction_visited (rs : RewardSystem) (st : Observation)
    (p : TileKey) :
    (p ∈ (rs.UpdateRewardAction st).1.visitedTiles
      ↔ p ∈ rs.visitedTiles ∨ p = posKey st) := by
  unfold UpdateRewardAction
  simp only [CheckMapGoal_visited, CheckTileRecord_visited]
  by_cases hmem : posKey st ∈ rs.visitedTiles
  · rw [if_pos hmem]
    constructor
    · exact fun h => Or.inl h
    · rintro (h | rfl)
      · exact h
      · exact hmem
  · rw [if_neg hmem]
    rw [List.mem_cons]
    tauto

theorem UpdateRewardAction_pending (rs : RewardSystem) (st : Observation) :
    (rs.UpdateRewardAction st).1.pendingGoalLocation
      = match findGoal rs.pendingGoalLocation st.mapBank st.mapNum with
        | none => rs.pendingGoalLocation
        | some (_, rest) => rest := by
  unfold UpdateRewardAction
  simp only [CheckMapGoal_pending, CheckTileRecord_pending]
  rfl

theorem runUpdates_visited (l : List Observation) (rs : RewardSystem)
    (p : TileKey) :
    (p ∈ (rs.runUpdates l).visitedTiles
      ↔ p ∈ rs.visitedTiles ∨ p ∈ l.map posKey) := by
  induction l generalizing rs with
  | nil => simp [runUpdates]
  | cons st rest ih =>
    show p ∈ (((rs.UpdateRewardAction st).1).runUpdates rest).visitedTiles ↔ _
    rw [ih, UpdateRewardAction_visited]
    simp only [List.map_cons, List.mem_cons]
    tauto

end RewardSystem

/-! ## Claim C2 -/

/-- C2: over any run of `UpdateRewardAction` calls starting from a `Reset`,
the novelty bonus for a tile key fires exactly on the first call that sees
that key and on no later call (the tile-bonus condition after a prefix holds
iff the key does not occur in the prefix); each call adds the bonus `+1` to
the accumulator exactly when the key is unseen (plus the goal bonus and the
unconditional `-0.1`), records the key as visited, and `Reset` clears the
visited-tile set. -/
theorem C2_novelty_bonus_once :
    (∀ (rs : RewardSystem) (pre : List Observation) (st : Observation),
        RewardSystem.tileBonusGranted ((rs.Reset).runUpdates pre) st ↔
          RewardSystem.posKey st ∉ pre.map RewardSystem.posKey) ∧
    (∀ (rs : RewardSystem) (st : Observation),
        (rs.UpdateRewardAction st).1.reward
            = rs.reward
              + (if RewardSystem.posKey st ∈ rs.visitedTiles then 0 else 1)
              + rs.goalBonus st - 1/10 ∧
        RewardSystem.posKey st ∈ (rs.UpdateRewardAction st).1.visitedTiles) ∧
    (∀ rs : RewardSystem, (rs.Reset).visitedTiles = []) := by
  refine ⟨fun rs pre st => ?_, fun rs st => ?_, fun rs => rfl⟩
  · unfold RewardSystem.tileBonusGranted
    rw [RewardSystem.runUpdates_visited]
    simp [RewardSystem.Reset]
  · exact ⟨RewardSystem.UpdateRewardAction_reward rs st,
      (RewardSystem.UpdateRewardAction_visited rs st _).2 (Or.inr rfl)⟩

/-! ## Lemmas about goal consumption -/

namespace RewardSystem

theorem findGoal_count {l : List Goal} {bank num : Int} {g : Goal}
    {rest : List Goal} (h : findGoal l bank num = some (g, rest)) (x : Goal) :
    goalCount x l = goalCount x rest + (if g = x then 1 else 0) := by
  induction l generalizing rest with
  | nil => simp [findGoal] at h
  | cons g0 tl ih =>
    by_cases hc : g0.mapNum = num ∧ g0.mapBank = bank
    · rw [findGoal, if_pos hc] at h
      obtain ⟨rfl, rfl⟩ : g = g0 ∧ rest = tl := by
        constructor <;> cases h <;> rfl
      simp only [goalCount]
      exact Nat.add_comm _ _
    · rw [findGoal, if_neg hc] at h
      cases hf : findGoal tl bank num with
      | none => rw [hf] at h; simp at h
      | some p =>
        obtain ⟨g', rest'⟩ := p
        rw [hf] at h
        simp only [Option.map_some'] at h
        obtain ⟨rfl, rfl⟩ : g = g' ∧ rest = g0 :: rest' := by
          constructor <;> cases h <;> rfl
        have := ih hf
        simp only [goalCount] at *
        omega

theorem findGoal_parts {l : List Goal} {bank num : Int} {g : Goal}
    {rest : List Goal} (h : findGoal l bank num = some (g, rest)) :
    rest ⊆ l ∧ rest.length + 1 = l.length ∧ g ∈ l := by
  induction l generalizing rest with
  | nil => simp [findGoal] at h
  | cons g0 tl ih =>
    by_cases hc : g0.mapNum = num ∧ g0.mapBank = bank
    · rw [findGoal, if_pos hc] at h
      obtain ⟨rfl, rfl⟩ : g = g0 ∧ rest = tl := by
        constructor <;> cases h <;> rfl
      exact ⟨List.subset_cons_self _ _, rfl, List.mem_cons_self _ _⟩
    · rw [findGoal, if_neg hc] at h
      cases hf : findGoal tl bank num with
      | none => rw [hf] at h; simp at h
      | some p =>
        obtain ⟨g', rest'⟩ := p
        rw [hf] at h
        simp only [Option.map_some'] at h
        obtain ⟨rfl, rfl⟩ : g = g' ∧ rest = g0 :: rest' := by
          constructor <;> cases h <;> rfl
        obtain ⟨hsub, hlen, hmem⟩ := ih hf
        refine ⟨List.cons_subset_cons g0 hsub, ?_, List.mem_cons_of_mem g0 hmem⟩
        simp only [List.length_cons]
        omega

theorem goalCount_pos_of_mem {g : Goal} {l : List Goal} (h : g ∈ l) :
    1 ≤ goalCount g l := by
  induction l with
  | nil => simp at h
  | cons g0 tl ih =>
    rcases List.mem_cons.mp h with rfl | h'
    · simp [goalCount]
    · have := ih h'
      simp only [goalCount]
      omega

theorem pending_update_count (rs : RewardSystem) (st : Observation) (g : Goal) :
    goalCount g (rs.UpdateRewardAction st).1.pendingGoalLocation
      ≤ goalCount g rs.pendingGoalLocation := by
  rw [UpdateRewardAction_pending]
  cases hf : findGoal rs.pendingGoalLocation st.mapBank st.mapNum with
  | none => exact le_refl _
  | some p =>
    obtain ⟨g', rest⟩ := p
    have := findGoal_count hf g
    simp only
    omega

theorem goalGrantCount_zero {g : Goal} (l : List Observation)
    (rs : RewardSystem) (h : goalCount g rs.pendingGoalLocation = 0) :
    goalGrantCount rs l g = 0 := by
  induction l generalizing rs with
  | nil => rfl
  | cons st rest ih =>
    have hnot : ¬ ((findGoal rs.pendingGoalLocation st.mapBank st.mapNum).map
        Prod.fst = some g) := by
      intro hg
      cases hf : findGoal rs.pendingGoalLocation st.mapBank st.mapNum with
      | none => rw [hf] at hg; simp at hg
      | some p =>
        obtain ⟨g', rest'⟩ := p
        rw [hf] at hg
        simp only [Option.map_some', Option.some.injEq] at hg
        subst hg
        have := goalCount_pos_of_mem (findGoal_parts hf).2.2
        omega
    have hz : goalCount g (rs.UpdateRewardAction st).1.pendingGoalLocation = 0 := by
      have := pending_update_count rs st g
      omega
    show (if _ then 1 else 0) + goalGrantCount (rs.UpdateRewardAction st).1 rest g = 0
    rw [if_neg hnot, ih _ hz]

theorem goalGrantCount_le_one {g : Goal} (l : List Observation)
    (rs : RewardSystem) (h : goalCount g rs.pendingGoalLocation ≤ 1) :
    goalGrantCount rs l g ≤ 1 := by
  induction l generalizing rs with
  | nil => exact Nat.zero_le 1
  | cons st rest ih =>
    show (if _ then 1 else 0) + goalGrantCount (rs.UpdateRewardAction st).1 rest g ≤ 1
    by_cases hg : (findGoal rs.pendingGoalLocation st.mapBank st.mapNum).map
        Prod.fst = some g
    · rw [if_pos hg]
      cases hf : findGoal rs.pendingGoalLocation st.mapBank st.mapNum with
      | none => rw [hf] at hg; simp at hg
      | some p =>
        obtain ⟨g', rest'⟩ := p
        rw [hf] at hg
        simp only [Option.map_some', Option.some.injEq] at hg
        subst hg
        have hcount := findGoal_count hf g'
        have hmem := goalCount_pos_of_mem (findGoal_parts hf).2.2
        have hz : goalCount g' (rs.UpdateRewardAction st).1.pendingGoalLocation = 0 := by
          rw [UpdateRewardAction_pending, hf]
          simp only
          simp at hcount
          omega
        rw [goalGrantCount_zero rest _ hz]
    · rw [if_neg hg]
      have hle : goalCount g (rs.UpdateRewardAction st).1.pendingGoalLocation ≤ 1 :=
        le_trans (pending_update_count rs st g) h
      simpa using ih _ hle

theorem goalCount_seedGoals_le_one (g : Goal) : goalCount g seedGoals ≤ 1 := by
  show (if (⟨0, 16, 50⟩ : Goal) = g then 1 else 0)
      + ((if (⟨1, 0, 25⟩ : Goal) = g then 1 else 0) + 0) ≤ 1
  by_cases h1 : (⟨0, 16, 50⟩ : Goal) = g
  · have h2 : ¬ ((⟨1, 0, 25⟩ : Goal) = g) := by
      intro h2
      rw [← h2] at h1
      cases h1
    rw [if_pos h1, if_neg h2]
  · rw [if_neg h1]
    split <;> omega

theorem pending_step_subset (rs : RewardSystem) (st : Observation) :
    (rs.UpdateRewardAction st).1.pendingGoalLocation ⊆ rs.pendingGoalLocation ∧
    rs.pendingGoalLocation.length
      ≤ (rs.UpdateRewardAction st).1.pendingGoalLocation.length + 1 := by
  rw [UpdateRewardAction_pending]
  cases hf : findGoal rs.pendingGoalLocation st.mapBank st.mapNum with
  | none => exact ⟨List.Subset.refl _, Nat.le_succ _⟩
  | some p =>
    obtain ⟨g', rest⟩ := p
    obtain ⟨hsub, hlen, _⟩ := findGoal_parts hf
    exact ⟨by simp only; exact hsub, by simp only; omega⟩

end RewardSystem

/-! ## Claim C3 -/

/-- C3: within one episode (a trace of `UpdateRewardAction` calls following a
`Reset`), each goal is consumed — and its bonus granted — at most once; a
single per-step update removes at most one goal from pending (the loop
`break`s after the first match); and `Reset` restores the full seed goal set
`{(mapBank 0, mapNum 16, reward 50), (mapBank 1, mapNum 0, reward 25)}`. -/
theorem C3_goal_bonus_once :
    (∀ (rs : RewardSystem) (l : List Observation) (g : Goal),
        RewardSystem.goalGrantCount (rs.Reset) l g ≤ 1) ∧
    (∀ (rs : RewardSystem) (st : Observation),
        (rs.UpdateRewardAction st).1.pendingGoalLocation
            ⊆ rs.pendingGoalLocation ∧
        rs.pendingGoalLocation.length
            ≤ (rs.UpdateRewardAction st).1.pendingGoalLocation.length + 1) ∧
    (∀ rs : RewardSystem, (rs.Reset).pendingGoalLocation = seedGoals) := by
  refine ⟨fun rs l g => ?_, RewardSystem.pending_step_subset, fun rs => rfl⟩
  exact RewardSystem.goalGrantCount_le_one l _
    (RewardSystem.goalCount_seedGoals_le_one g)

/-! ## Lemmas about the protocol parser -/

namespace MGBAEnvironment

theorem ParseState_badResponse (w : ℚ) (r : Option String) (h : badResponse r) :
    ParseState w r = GetErrorState := by
  cases r with
  | none => rfl
  | some s =>
    unfold ParseState
    simp only
    by_cases h0 : s = ""
    · rw [if_pos h0]
    · rw [if_neg h0]
      by_cases h1 : pyStarts s "ERROR:" = true
      · rw [if_pos h1]
      · rw [if_neg h1]
        by_cases h2 : pyStarts s "STATE:" = true
        · rw [if_neg (not_not_intro h2)]
          by_cases hlen : (pySplit (pyDrop s 6) ',').length = 9
          · rw [if_pos hlen]
            have hbad : pyInt ((pySplit (pyDrop s 6) ',').getD 0 "") = none ∨
                pyInt ((pySplit (pyDrop s 6) ',').getD 1 "") = none ∨
                pyInt ((pySplit (pyDrop s 6) ',').getD 2 "") = none ∨
                pyInt ((pySplit (pyDrop s 6) ',').getD 3 "") = none ∨
                pyInt ((pySplit (pyDrop s 6) ',').getD 7 "") = none := by
              rcases h with h | h | h | h | h
              · exact absurd h h0
              · exact absurd h h1
              · exact absurd (h ▸ h2) (by simp)
              · exact absurd hlen h
              · exact h
            rcases hbad with hb | hb | hb | hb | hb
            · rw [hb]
            · cases ha : pyInt ((pySplit (pyDrop s 6) ',').getD 0 "") with
              | none => rfl
              | some a => rw [hb]
            · cases ha : pyInt ((pySplit (pyDrop s 6) ',').getD 0 "") with
              | none => rfl
              | some a =>
                cases hb1 : pyInt ((pySplit (pyDrop s 6) ',').getD 1 "") with
                | none => rfl
                | some b => rw [hb]
            · cases ha : pyInt ((pySplit (pyDrop s 6) ',').getD 0 "") with
              | none => rfl
              | some a =>
                cases hb1 : pyInt ((pySplit (pyDrop s 6) ',').getD 1 "") with
                | none => rfl
                | some b =>
                  cases hb2 : pyInt ((pySplit (pyDrop s 6) ',').getD 2 "") with
                  | none => rfl
                  | some c => rw [hb]
            · cases ha : pyInt ((pySplit (pyDrop s 6) ',').getD 0 "") with
              | none => rfl
              | some a =>
                cases hb1 : pyInt ((pySplit (pyDrop s 6) ',').getD 1 "") with
                | none => rfl
                | some b =>
                  cases hb2 : pyInt ((pySplit (pyDrop s 6) ',').getD 2 "") with
                  | none => rfl
                  | some c =>
                    cases hb3 : pyInt ((pySplit (pyDrop s 6) ',').getD 3 "") with
                    | none => rfl
                    | some d => rw [hb]
          · rw [if_neg hlen]
        · rw [if_pos (by simpa using h2)]

theorem findGoal_none_of_forall {l : List Goal} {bank num : Int}
    (h : ∀ g ∈ l, ¬(g.mapNum = num ∧ g.mapBank = bank)) :
    RewardSystem.findGoal l bank num = none := by
  induction l with
  | nil => rfl
  | cons g0 tl ih =>
    rw [RewardSystem.findGoal, if_neg (h g0 (List.mem_cons_self _ _))]
    rw [ih (fun g hg => h g (List.mem_cons_of_mem g0 hg))]
    rfl

theorem reach_pending_sub {rs : RewardSystem} (h : RewardSystem.ReachableRS rs) :
    rs.pendingGoalLocation ⊆ seedGoals := by
  induction h with
  | reset rs0 => exact List.Subset.refl _
  | step rs0 st _ ih =>
    exact List.Subset.trans (RewardSystem.pending_step_subset rs0 st).1 ih

end MGBAEnvironment

/-! ## Claim C6 -/

/-- C6: for every response that is missing (`none`), empty, tagged `ERROR:`,
untagged, a `STATE:` response with a comma-field count other than 9, or one
whose int fields fail to parse, `ParseState` returns the error observation
with `x = y = mapBank = mapNum = -1`, `isInBattle = false`, `isDone = false`
and the `error` flag set — and, being a total function, never raises. -/
theorem C6_parse_error_observation (w : ℚ) (r : Option String)
    (h : MGBAEnvironment.badResponse r) :
    MGBAEnvironment.ParseState w r = MGBAEnvironment.GetErrorState ∧
    (MGBAEnvironment.ParseState w r).x = -1 ∧
    (MGBAEnvironment.ParseState w r).y = -1 ∧
    (MGBAEnvironment.ParseState w r).mapBank = -1 ∧
    (MGBAEnvironment.ParseState w r).mapNum = -1 ∧
    (MGBAEnvironment.ParseState w r).isInBattle = false ∧
    (MGBAEnvironment.ParseState w r).isDone = false ∧
    (MGBAEnvironment.ParseState w r).error = true := by
  have he := MGBAEnvironment.ParseState_badResponse w r h
  rw [he]
  exact ⟨rfl, rfl, rfl, rfl, rfl, rfl, rfl, rfl⟩

/-- Witness for C6: a `STATE:` response with 8 fields (one short) yields the
error observation with `isDone = false` instead of crashing. -/
theorem C6_parse_error_observation_witness :
    MGBAEnvironment.badResponse (some "STATE:1,2,3,4,true,false,A,7") ∧
    (MGBAEnvironment.ParseState 0 (some "STATE:1,2,3,4,true,false,A,7")
        = MGBAEnvironment.GetErrorState ∧
      (MGBAEnvironment.ParseState 0 (some "STATE:1,2,3,4,true,false,A,7")).x = -1 ∧
      (MGBAEnvironment.ParseState 0 (some "STATE:1,2,3,4,true,false,A,7")).y = -1 ∧
      (MGBAEnvironment.ParseState 0 (some "STATE:1,2,3,4,true,false,A,7")).mapBank = -1 ∧
      (MGBAEnvironment.ParseState 0 (some "STATE:1,2,3,4,true,false,A,7")).mapNum = -1 ∧
      (MGBAEnvironment.ParseState 0 (some "STATE:1,2,3,4,true,false,A,7")).isInBattle = false ∧
      (MGBAEnvironment.ParseState 0 (some "STATE:1,2,3,4,true,false,A,7")).isDone = false ∧
      (MGBAEnvironment.ParseState 0 (some "STATE:1,2,3,4,true,false,A,7")).error = true) := by
  have hbad : MGBAEnvironment.badResponse (some "STATE:1,2,3,4,true,false,A,7") := by
    simp only [MGBAEnvironment.badResponse]
    right; right; right; left
    decide
  exact ⟨hbad, C6_parse_error_observation 0 (some "STATE:1,2,3,4,true,false,A,7") hbad⟩

/-! ## Claim C9 -/

/-- C9: when `Step` receives a valid action but the protocol exchange fails
(timeout/`none`, `ERROR:`, or otherwise malformed response), the reward
update still runs on the sentinel error position `(-1, -1, -1, -1)`: within
an episode the first such failure grants the `+1` novelty bonus for the
sentinel tile (no goal can match map bank/number `-1`), every such failure
applies the `-0.1` step cost, and the sentinel tile is recorded as
visited. -/
theorem C9_error_step_reward (env : MGBAEnvironment) (action : String)
    (response : Option String)
    (hact : pyUpper action ∈ MGBAEnvironment.envActions)
    (hbad : MGBAEnvironment.badResponse response)
    (hreach : RewardSystem.ReachableRS env.rewardSystem) :
    (env.Step action response).1.rewardSystem.reward
        = env.rewardSystem.reward
          + (if ((-1, -1, -1, -1) : TileKey) ∈ env.rewardSystem.visitedTiles
              then 0 else 1)
          - 1/10 ∧
    ((-1, -1, -1, -1) : TileKey)
        ∈ (env.Step action response).1.rewardSystem.visitedTiles := by
  have herr := MGBAEnvironment.ParseState_badResponse
    env.rewardSystem.reward response hbad
  have hkey : RewardSystem.posKey MGBAEnvironment.GetErrorState
      = ((-1, -1, -1, -1) : TileKey) := rfl
  have hstep : (env.Step action response).1.rewardSystem
      = (env.rewardSystem.UpdateRewardAction MGBAEnvironment.GetErrorState).1 := by
    unfold MGBAEnvironment.Step
    rw [if_neg (not_not_intro hact)]
    simp only [herr]
  have hbonus : env.rewardSystem.goalBonus MGBAEnvironment.GetErrorState = 0 := by
    unfold RewardSystem.goalBonus
    rw [MGBAEnvironment.findGoal_none_of_forall]
    intro g hg
    have hseed := MGBAEnvironment.reach_pending_sub hreach hg
    have : g = (⟨0, 16, 50⟩ : Goal) ∨ g = (⟨1, 0, 25⟩ : Goal) := by
      simpa [seedGoals] using hseed
    rcases this with rfl | rfl <;> simp [MGBAEnvironment.GetErrorState]
  constructor
  · rw [hstep, RewardSystem.UpdateRewardAction_reward, hbonus, hkey, add_zero]
  · rw [hstep]
    exact (RewardSystem.UpdateRewardAction_visited _ _ _).2 (Or.inr hkey.symm)

/-- Witness for C9: a freshly reset environment stepped with action `"A"` and
a timed-out (`none`) response: the sentinel tile is unvisited, so the reward
becomes `0 + 1 - 0.1` and the sentinel is recorded. -/
theorem C9_error_step_reward_witness :
    (pyUpper "A" ∈ MGBAEnvironment.envActions ∧
      RewardSystem.ReachableRS envReset.rewardSystem) ∧
    ((envReset.Step "A" none).1.rewardSystem.reward
        = envReset.rewardSystem.reward
          + (if ((-1, -1, -1, -1) : TileKey) ∈ envReset.rewardSystem.visitedTiles
              then 0 else 1)
          - 1/10 ∧
      ((-1, -1, -1, -1) : TileKey)
          ∈ (envReset.Step "A" none).1.rewardSystem.visitedTiles) :=
  ⟨⟨by decide, RewardSystem.ReachableRS.reset RewardSystem.init⟩,
    C9_error_step_reward envReset "A" none (by decide) trivial
      (RewardSystem.ReachableRS.reset RewardSystem.init)⟩

end PokemonRL
